import Mathlib

/-!
Shallow embedding of `shadir` (src/main.go): a concurrent file-hashing tool
that walks a directory tree, hashes every regular file (optionally following
symlinks), deduplicates work across hard links via an inode-keyed cache, and
reports the first worker error after all work completes.

External collaborators (the Go standard library's hash packages, `regexp`,
the OS filesystem, and the `errgroup` scheduler) are modelled as explicit
parameters or abstract-but-computable stand-ins; everything else is a direct
translation of the functions in src/main.go.
-/

set_option autoImplicit false

namespace Shadir

/-- Model of `syscall.Stat_t`: the two fields the program reads. -/
structure StatT where
  ino : Nat
  nlink : Nat
deriving Repr, DecidableEq

/-- Model of `os.FileInfo` as the program consumes it: `IsDir()`,
`Mode().IsRegular()`, `Mode()&os.ModeSymlink`, and `Sys()` (which is
`none` when the cast `info.Sys().(*syscall.Stat_t)` fails, i.e. `inodeOk`
is false in `worker`). -/
structure FileInfo where
  isDir : Bool
  isRegular : Bool
  isSymlink : Bool
  sys : Option StatT
deriving Repr, DecidableEq

/-- The hard-link cache (`hardLinks *sync.Map`), modelled as an association
list; `load` returns the most recently stored binding, matching the map
semantics of `sync.Map`. -/
abbrev Cache := List (Nat × String)

/-- Model of `sync.Map.Load`. -/
def Cache.load : Cache → Nat → Option String
  | [], _ => none
  | (k, v) :: rest, i => if k = i then some v else Cache.load rest i

/-- Model of `sync.Map.Store` (main.go line 82): sets the value for the key —
an unconditional insert-or-overwrite. -/
def Cache.store (c : Cache) (k : Nat) (v : String) : Cache :=
  (k, v) :: c

/-- The write operation the spec claims the worker performs: a single
"insert if absent, else ignore" (`sync.Map.LoadOrStore`-style) operation.
Stated from the spec's words, for comparison with `Cache.store`, the
operation the code actually uses. -/
def Cache.loadOrStore (c : Cache) (k : Nat) (v : String) : Cache :=
  match Cache.load c k with
  | some _ => c
  | none => Cache.store c k v

/-- The hash algorithms enumerated by the `switch` in `worker`
(main.go lines 42-68). -/
inductive HashAlgo where
  | crc32 | crc64 | md5 | sha1 | sha256 | sha512
  | sha3x512 | sha3x256 | blake2b512 | blake2b256 | whirlpool
deriving Repr, DecidableEq

/-- The identifiers accepted by the `switch` in `worker` (its `case` labels). -/
def supportedAlgos : List String :=
  ["crc32", "crc64", "md5", "sha1", "sha256", "sha512",
   "sha3-512", "sha3-256", "blake2b-512", "blake2b-256", "whirlpool"]

/-- The `switch hashalgo` in `worker` (main.go lines 42-68): maps the
identifier to the constructed hasher; the second component records whether
the `default` branch fired (its warning to stderr). -/
def selectHasher (s : String) : HashAlgo × Bool :=
  if s = "crc32" then (HashAlgo.crc32, false)
  else if s = "crc64" then (HashAlgo.crc64, false)
  else if s = "md5" then (HashAlgo.md5, false)
  else if s = "sha1" then (HashAlgo.sha1, false)
  else if s = "sha256" then (HashAlgo.sha256, false)
  else if s = "sha512" then (HashAlgo.sha512, false)
  else if s = "sha3-512" then (HashAlgo.sha3x512, false)
  else if s = "sha3-256" then (HashAlgo.sha3x256, false)
  else if s = "blake2b-512" then (HashAlgo.blake2b512, false)
  else if s = "blake2b-256" then (HashAlgo.blake2b256, false)
  else if s = "whirlpool" then (HashAlgo.whirlpool, false)
  else (HashAlgo.sha256, true)

/-- Model of the external hash libraries: the hex-rendered digest is a
deterministic, computable function of the algorithm and the file contents.
No claim depends on concrete digest values, only on which algorithm is used
and on determinism, so a tagged string stands in for the real digest. -/
def digestOf (a : HashAlgo) (content : String) : String :=
  (match a with
   | HashAlgo.crc32 => "crc32"
   | HashAlgo.crc64 => "crc64"
   | HashAlgo.md5 => "md5"
   | HashAlgo.sha1 => "sha1"
   | HashAlgo.sha256 => "sha256"
   | HashAlgo.sha512 => "sha512"
   | HashAlgo.sha3x512 => "sha3-512"
   | HashAlgo.sha3x256 => "sha3-256"
   | HashAlgo.blake2b512 => "blake2b-512"
   | HashAlgo.blake2b256 => "blake2b-256"
   | HashAlgo.whirlpool => "whirlpool") ++ ":" ++ content

/-- The third column of a result line: `-` for computed, `*` for a
hard-link cache hit (main.go lines 35 and 85). -/
inductive Marker where
  | computed | reused
deriving Repr, DecidableEq

/-- One line printed to stdout: `<digest>  <path>  <marker>`. -/
structure ResultLine where
  digest : String
  path : String
  marker : Marker
deriving Repr, DecidableEq

/-- Everything observable about one `worker` call: its stdout lines, its
stderr lines, the cache it leaves behind, its returned error (`none` = Go
`nil`), and the paths it passed to `os.Open`. -/
structure WorkerOut where
  stdout : List ResultLine
  stderr : List String
  cache : Cache
  err : Option String
  opened : List String
deriving Repr, DecidableEq

/-- The hashing tail of `worker` (main.go lines 40-86), reached when the
hard-link cache did not hit: select the hasher (warning on the `default`
branch), open and stream the file (an open or read failure is returned as
the task's error), store the digest when `Nlink > 1`, print the computed
line. `readFile` models `os.Open` + `io.Copy`. -/
def workerHash (readFile : String → Except String String) (path : String)
    (hardLinks : Cache) (info : FileInfo) (hashalgo : String) : WorkerOut :=
  let sel := selectHasher hashalgo
  let warn : List String :=
    if sel.2 then ["unsupported hash algorithm " ++ hashalgo ++ " falling back to sha256"]
    else []
  match readFile path with
  | Except.error e =>
      { stdout := [], stderr := warn, cache := hardLinks, err := some e, opened := [path] }
  | Except.ok content =>
      let d := digestOf sel.1 content
      let cache2 :=
        match info.sys with
        | some stat => if stat.nlink > 1 then Cache.store hardLinks stat.ino d else hardLinks
        | none => hardLinks
      { stdout := [⟨d, path, Marker.computed⟩], stderr := warn, cache := cache2,
        err := none, opened := [path] }

/-- `worker` (main.go lines 28-87): when the metadata carries an inode and
the hard-link cache holds it, print the reused line with the cached digest
and return nil without opening the file; otherwise hash the file. -/
def worker (readFile : String → Except String String) (path : String)
    (hardLinks : Cache) (info : FileInfo) (hashalgo : String) : WorkerOut :=
  match info.sys with
  | some stat =>
      match Cache.load hardLinks stat.ino with
      | some h =>
          { stdout := [⟨h, path, Marker.reused⟩], stderr := [], cache := hardLinks,
            err := none, opened := [] }
      | none => workerHash readFile path hardLinks info hashalgo
  | none => workerHash readFile path hardLinks info hashalgo

mutual
/-- A filesystem tree as the walk observes it. A `file` node is any
non-directory object, carrying its `Lstat` info and the `os.Readlink`
outcome for it; `dir` carries the listing (or the listing error); `badStat`
is an entry whose `Lstat` fails. -/
inductive FSTree where
  | file (info : FileInfo) (readlink : Except String String)
  | dir (info : FileInfo) (entries : FSEntries) (readDirErr : Option String)
  | badStat (e : String)

/-- The named children of a directory, in the (sorted) order
`filepath.Walk` visits them. -/
inductive FSEntries where
  | nil
  | cons (name : String) (child : FSTree) (rest : FSEntries)
end

/-- `checkSymlink` (main.go lines 89-102), applied to the node the path
denotes: `Lstat` failure is an error; a symlink is resolved via `Readlink`
(whose failure is an error); anything else reports `(false, "")`. -/
def checkSymlink (node : FSTree) : Except String (Bool × String) :=
  match node with
  | FSTree.badStat e => Except.error e
  | FSTree.dir _ _ _ => Except.ok (false, "")
  | FSTree.file info rl =>
      if info.isSymlink then
        match rl with
        | Except.error e => Except.error e
        | Except.ok target => Except.ok (true, target)
      else Except.ok (false, "")

/-- A task handed to `eg.Go`: the path `worker` will receive and the
`FileInfo` captured by the closure. -/
structure Submission where
  path : String
  info : FileInfo
deriving Repr, DecidableEq

/-- The observable outcome of the walk: the `filecount` counter, the
submissions made to the errgroup in order, and the stderr diagnostics. -/
structure WalkOut where
  filecount : Nat
  subs : List Submission
  errs : List String
deriving Repr, DecidableEq

/-- What the walk callback returns to `filepath.Walk`: `nil` or
`filepath.SkipDir` (the callback in this program never returns an error). -/
inductive FnRet where
  | ok | skipDir
deriving Repr, DecidableEq

/-- `excludePattern != nil && excludePattern.MatchString(path)`
(main.go lines 114 and 121); `none` models a nil pattern. -/
def matchesExclude (excl : Option (String → Bool)) (path : String) : Bool :=
  match excl with
  | some p => p path
  | none => false

/-- Format of the per-path walk diagnostic (main.go line 110). -/
def walkErrMsg (path e : String) : String :=
  "unable to walk " ++ path ++ ": " ++ e

/-- The non-directory part of the walk callback (main.go lines 121-148):
skip excluded paths; submit regular files; for the rest, when following
symlinks resolve and submit the raw target (resolution failure is logged
and skipped), otherwise log a skipped-entry notice. -/
def visitFile (follow : Bool) (excl : Option (String → Bool)) (path : String)
    (info : FileInfo) (rl : Except String String) (st : WalkOut) : WalkOut :=
  if matchesExclude excl path then st
  else if info.isRegular then
    { st with filecount := st.filecount + 1, subs := st.subs ++ [⟨path, info⟩] }
  else if follow then
    match checkSymlink (FSTree.file info rl) with
    | Except.error e =>
        { st with errs := st.errs ++ ["error reading symlink " ++ path ++ ": " ++ e] }
    | Except.ok (isSymlink, target) =>
        if isSymlink then
          { st with filecount := st.filecount + 1, subs := st.subs ++ [⟨target, info⟩] }
        else st
  else
    { st with errs := st.errs ++ ["skipping non-regular file " ++ path] }

mutual
/-- The recursion of `filepath.Walk` specialised to the callback in
`walkDirectory` (main.go lines 108-149): an `Lstat`/listing error is
printed and absorbed (the callback returns nil, so that subtree is skipped
and the walk continues); an excluded directory returns `SkipDir`; a
readable directory visits its children in order; a non-directory runs
`visitFile`. -/
def walkRec (follow : Bool) (excl : Option (String → Bool)) (path : String)
    (node : FSTree) (st : WalkOut) : WalkOut × FnRet :=
  match node with
  | FSTree.badStat e =>
      ({ st with errs := st.errs ++ [walkErrMsg path e] }, FnRet.ok)
  | FSTree.file info rl => (visitFile follow excl path info rl st, FnRet.ok)
  | FSTree.dir _ entries rdErr =>
      match rdErr with
      | some e => ({ st with errs := st.errs ++ [walkErrMsg path e] }, FnRet.ok)
      | none =>
          if matchesExclude excl path then (st, FnRet.skipDir)
          else walkChildren follow excl path entries st

/-- The child loop of `filepath.Walk`: each child is visited at
`path ++ "/" ++ name`; a child's `SkipDir` (only ever produced by an
excluded directory) is swallowed and siblings continue, because the
callback never returns a plain error. -/
def walkChildren (follow : Bool) (excl : Option (String → Bool)) (path : String)
    (entries : FSEntries) (st : WalkOut) : WalkOut × FnRet :=
  match entries with
  | FSEntries.nil => (st, FnRet.ok)
  | FSEntries.cons name child rest =>
      let r := walkRec follow excl (path ++ "/" ++ name) child st
      walkChildren follow excl path rest r.1
end

/-- `walkDirectory` (main.go lines 104-151): runs the walk from the root
node (whose own `Lstat` outcome `filepath.Walk` checks first) with an empty
state; the walk's return value is discarded by the program. -/
def walkDirectory (follow : Bool) (excl : Option (String → Bool)) (dir : String)
    (root : FSTree) : WalkOut :=
  (walkRec follow excl dir root { filecount := 0, subs := [], errs := [] }).1

/-- The execution of all submitted tasks (the `eg.Go` closures), modelled
sequentially in submission order with the shared cache threaded through;
every task runs — an error from one task never removes later tasks, matching
the errgroup's run-to-completion behaviour (the context cancelled on first
error is never consulted by `worker`). -/
def runTasks (readFile : String → Except String String) (hashalgo : String)
    (cache : Cache) (tasks : List Submission) : Cache × List WorkerOut :=
  match tasks with
  | [] => (cache, [])
  | t :: rest =>
      let out := worker readFile t.path cache t.info hashalgo
      let r := runTasks readFile hashalgo out.cache rest
      (r.1, out :: r.2)

/-- Model of `errgroup.Group.Wait`'s error result: the first error among
the task results, `none` when every task returned nil. -/
def firstError (outs : List WorkerOut) : Option String :=
  match outs with
  | [] => none
  | o :: rest =>
      match o.err with
      | some e => some e
      | none => firstError rest

/-- The observable outcome of one `main` invocation: the process exit code,
stderr, and the stdout result lines. -/
structure MainOut where
  exitCode : Nat
  stderr : List String
  results : List ResultLine
deriving Repr, DecidableEq

/-- The exclusion-pattern setup in `main` (lines 161-172): an empty
`-exclude` leaves the pattern nil; a non-empty one is compiled, and a
compile failure is fatal. `compile` models `regexp.Compile`, returning the
compiled pattern as a predicate on paths. -/
def compileExclude (compile : String → Except String (String → Bool))
    (exclude : String) : Except String (Option (String → Bool)) :=
  if exclude = "" then Except.ok none
  else
    match compile exclude with
    | Except.error e => Except.error e
    | Except.ok p => Except.ok (some p)

/-- `main` (main.go lines 153-193): compile the exclusion pattern (fatal on
failure), resolve the root to an absolute path (fatal on failure —
`absResult` models `filepath.Abs(filepath.Clean(*dir))`, which fails when
the working directory cannot be determined), walk, wait for all workers,
and exit 1 on the first worker error or print the processed-file count and
exit 0. -/
def mainRun (compile : String → Except String (String → Bool))
    (absResult : Except String String)
    (readFile : String → Except String String)
    (root : FSTree) (follow : Bool) (hashalgo : String) (exclude : String) : MainOut :=
  match compileExclude compile exclude with
  | Except.error e =>
      { exitCode := 1, stderr := ["invalid exclude pattern: " ++ e], results := [] }
  | Except.ok excl =>
      match absResult with
      | Except.error e =>
          { exitCode := 1, stderr := ["Error: " ++ e], results := [] }
      | Except.ok absPath =>
          let w := walkDirectory follow excl absPath root
          let outs := (runTasks readFile hashalgo [] w.subs).2
          let diags := w.errs ++ (outs.map WorkerOut.stderr).flatten
          match firstError outs with
          | some e =>
              { exitCode := 1, stderr := diags ++ ["Error: " ++ e],
                results := (outs.map WorkerOut.stdout).flatten }
          | none =>
              { exitCode := 0,
                stderr := diags ++ ["Files processed: " ++ toString w.filecount],
                results := (outs.map WorkerOut.stdout).flatten }

/-- The concurrency limit `main` configures on the errgroup
(main.go lines 176-178): `SetLimit(poolSize)` is called exactly when
`poolSize > 0`; otherwise the group stays unlimited. -/
def egLimit (poolSize : Int) : Option Nat :=
  if 0 < poolSize then some poolSize.toNat else none

/-- Modelled from the spec (§4.2) and the errgroup library's documented
contract (the Bounded Scheduler is the external `golang.org/x/sync/errgroup`
package, not code of this repository): a step of the scheduler either starts
a task — allowed only when below the configured limit — or finishes one.
The state is the number of simultaneously active workers. -/
inductive SchedStep (limit : Option Nat) : Nat → Nat → Prop
  | start (active : Nat) (h : ∀ n, limit = some n → active < n) :
      SchedStep limit active (active + 1)
  | finish (active : Nat) : SchedStep limit (active + 1) active

/-- The scheduler states reachable from idle (zero active workers). -/
def SchedReachable (limit : Option Nat) (active : Nat) : Prop :=
  Relation.ReflTransGen (SchedStep limit) 0 active

/-- Model of OS path resolution as `os.Open` performs it: an absolute path
is used as is, a relative path is resolved against the process's current
working directory. -/
def resolvePath (cwd p : String) : String :=
  match p.data with
  | '/' :: _ => p
  | _ => cwd ++ "/" ++ p

/-- Model of `os.Open` + `io.Copy` over a store of file contents keyed by
absolute path: the content at the cwd-resolved path, or an open error. -/
def sysRead (cwd : String) (fsFiles : String → Option String) (p : String) :
    Except String String :=
  match fsFiles (resolvePath cwd p) with
  | some content => Except.ok content
  | none => Except.error ("open " ++ p ++ ": no such file or directory")

/-! Concrete fixtures used by witnesses and counterexamples. -/

/-- A regular file's info: inode 5, two hard links. -/
def regInfoW : FileInfo := { isDir := false, isRegular := true, isSymlink := false, sys := some ⟨5, 2⟩ }

/-- A symlink's info: inode 7, one link. -/
def symInfoW : FileInfo := { isDir := false, isRegular := false, isSymlink := true, sys := some ⟨7, 1⟩ }

/-- A FIFO's info: non-regular, non-symlink. -/
def fifoInfoW : FileInfo := { isDir := false, isRegular := false, isSymlink := false, sys := some ⟨9, 1⟩ }

/-- A directory's info. -/
def dirInfoW : FileInfo := { isDir := true, isRegular := false, isSymlink := false, sys := none }

/-- A pattern compiler that always succeeds, yielding a never-matching
pattern. -/
def compOkW : String → Except String (String → Bool) := fun _ => Except.ok fun _ => false

/-- A tree holding a single regular file. -/
def treeOneW : FSTree :=
  FSTree.dir dirInfoW
    (FSEntries.cons "a.txt" (FSTree.file regInfoW (Except.ok "")) FSEntries.nil) none

/-- The main outcome when the root path cannot be resolved to an absolute
path (`filepath.Abs` fails) while everything else is healthy. -/
def mainBadAbsW : MainOut :=
  mainRun compOkW (Except.error "getwd: no such file or directory")
    (fun _ => Except.ok "hi") treeOneW false "sha256" "x"

/-! ### Helper lemmas about the worker and the run -/

theorem load_store (c : Cache) (k : Nat) (v : String) (i : Nat) :
    Cache.load (Cache.store c k v) i = if k = i then some v else Cache.load c i := rfl

/-- A worker whose inode is already cached takes the reuse branch: one
reused line with the cached digest, no stderr, the cache untouched, a nil
return, and no file opened. -/
theorem worker_hit (readFile : String → Except String String) (path : String)
    (cache : Cache) (info : FileInfo) (hashalgo : String) (stat : StatT) (d : String)
    (hs : info.sys = some stat) (hload : Cache.load cache stat.ino = some d) :
    worker readFile path cache info hashalgo =
      { stdout := [⟨d, path, Marker.reused⟩], stderr := [], cache := cache,
        err := none, opened := [] } := by
  simp only [worker, hs, hload]

/-- A worker that misses the cache (or has no inode) and reads the file
successfully: one computed line, the fallback warning exactly when the
algorithm is unsupported, a store exactly when the link count exceeds one,
and the file opened once. -/
theorem worker_miss (readFile : String → Except String String) (path : String)
    (cache : Cache) (info : FileInfo) (hashalgo : String) (content : String)
    (hmiss : ∀ stat, info.sys = some stat → Cache.load cache stat.ino = none)
    (hread : readFile path = Except.ok content) :
    worker readFile path cache info hashalgo =
      { stdout := [⟨digestOf (selectHasher hashalgo).1 content, path, Marker.computed⟩],
        stderr := if (selectHasher hashalgo).2 then
            ["unsupported hash algorithm " ++ hashalgo ++ " falling back to sha256"]
          else [],
        cache := match info.sys with
                 | some stat =>
                     if stat.nlink > 1 then
                       Cache.store cache stat.ino (digestOf (selectHasher hashalgo).1 content)
                     else cache
                 | none => cache,
        err := none, opened := [path] } := by
  cases hsys : info.sys with
  | none => simp only [worker, workerHash, hsys, hread]
  | some stat => simp only [worker, workerHash, hsys, hmiss stat hsys, hread]

/-- The worker never removes or changes an existing cache binding. -/
theorem worker_preserves_load (readFile : String → Except String String) (path : String)
    (cache : Cache) (info : FileInfo) (hashalgo : String) (i : Nat) (d : String)
    (h : Cache.load cache i = some d) :
    Cache.load (worker readFile path cache info hashalgo).cache i = some d := by
  cases hsys : info.sys with
  | none =>
    cases hread : readFile path with
    | error e => simp only [worker, workerHash, hsys, hread]; exact h
    | ok content => simp only [worker, workerHash, hsys, hread]; exact h
  | some stat =>
    cases hload : Cache.load cache stat.ino with
    | some v => simp only [worker, hsys, hload]; exact h
    | none =>
      cases hread : readFile path with
      | error e => simp only [worker, workerHash, hsys, hload, hread]; exact h
      | ok content =>
        simp only [worker, workerHash, hsys, hload, hread]
        by_cases hn : stat.nlink > 1
        · have hne : stat.ino ≠ i := by
            intro he
            rw [he, h] at hload
            exact Option.noConfusion hload
          simp only [hn, if_true, load_store, hne, if_false]
          exact h
        · simp only [hn, if_false]
          exact h

/-- In a sequential run of the submitted tasks, a task whose inode is
cached when the run reaches it opens no file; bindings only accumulate, so
an inode cached at the start stays cached for every later task. -/
theorem runTasks_cached_not_opened (readFile : String → Except String String)
    (hashalgo : String) :
    ∀ (tasks : List Submission) (cache : Cache) (i : Nat) (d : String),
      Cache.load cache i = some d →
      ∀ p ∈ List.zip tasks (runTasks readFile hashalgo cache tasks).2,
        ∀ stat, p.1.info.sys = some stat → stat.ino = i → p.2.opened = [] := by
  intro tasks
  induction tasks with
  | nil =>
    intro cache i d _ p hp
    simp [runTasks] at hp
  | cons t rest ih =>
    intro cache i d hload p hp stat hs hi
    simp only [runTasks, List.zip_cons_cons, List.mem_cons] at hp
    rcases hp with rfl | hp
    · have := worker_hit readFile t.path cache t.info hashalgo stat d hs (hi ▸ hload)
      simp [this]
    · exact ih (worker readFile t.path cache t.info hashalgo).cache i d
        (worker_preserves_load readFile t.path cache t.info hashalgo i d hload)
        p hp stat hs hi

/-- Every submitted task produces exactly one worker execution: an error
from one task never removes later tasks from the run. -/
theorem runTasks_length (readFile : String → Except String String) (hashalgo : String) :
    ∀ (tasks : List Submission) (cache : Cache),
      (runTasks readFile hashalgo cache tasks).2.length = tasks.length := by
  intro tasks
  induction tasks with
  | nil => intro cache; rfl
  | cons t rest ih =>
    intro cache
    simp only [runTasks, List.length_cons]
    rw [ih]

/-! ### Claim theorems -/

/-- Claim C1: a file submitted to a worker whose metadata carries an inode
already present in the hard-link cache makes the worker emit exactly the
reused-marker result line with the cached digest and return nil without
opening or reading the file; and in a run, once an inode is present in the
cache, no task for that inode ever opens a file again. -/
theorem cache_hit_no_read (readFile : String → Except String String)
    (hashalgo : String) (cache : Cache) (i : Nat) (d : String)
    (hload : Cache.load cache i = some d) :
    (∀ path info stat, info.sys = some stat → stat.ino = i →
      worker readFile path cache info hashalgo =
        { stdout := [⟨d, path, Marker.reused⟩], stderr := [], cache := cache,
          err := none, opened := [] }) ∧
    (∀ tasks, ∀ p ∈ List.zip tasks (runTasks readFile hashalgo cache tasks).2,
      ∀ stat, p.1.info.sys = some stat → stat.ino = i → p.2.opened = []) := by
  constructor
  · intro path info stat hs hi
    exact worker_hit readFile path cache info hashalgo stat d hs (hi ▸ hload)
  · intro tasks
    exact runTasks_cached_not_opened readFile hashalgo tasks cache i d hload

theorem cache_hit_no_read_witness :
    worker (fun _ => Except.ok "x") "p" [(5, "d0")] regInfoW "sha256" =
      { stdout := [⟨"d0", "p", Marker.reused⟩], stderr := [], cache := [(5, "d0")],
        err := none, opened := [] } :=
  (cache_hit_no_read (fun _ => Except.ok "x") "sha256" [(5, "d0")] 5 "d0" rfl).1
    "p" regInfoW ⟨5, 2⟩ rfl rfl

/-- Claim C2 counterexample: the cache write the worker performs is
`sync.Map.Store` — an unconditional set-value — not the
"insert if absent, else ignore" operation the claim describes: on a cache
already holding the key, `Store` overwrites where insert-if-absent would
keep the old binding. (Such a write is reached only when two racing workers
for the same inode both miss; both then write the same digest, so the
stored value still never changes.) -/
theorem store_overwrites :
    Cache.load (Cache.store [(1, "a")] 1 "b") 1 ≠
      Cache.load (Cache.loadOrStore [(1, "a")] 1 "b") 1 := by decide

/-- Claim C2 (amended): the hard-link cache receives entries only for files
whose link count exceeds one and only when the worker missed the cache for
that inode; no entry is ever removed; and each write is a single atomic
store (set-value) on the concurrency-safe map — not insert-if-absent —
issued only after a miss, so every existing binding is preserved. -/
theorem cache_write_policy (readFile : String → Except String String)
    (path : String) (cache : Cache) (info : FileInfo) (hashalgo : String) :
    ((worker readFile path cache info hashalgo).cache = cache ∨
      ∃ stat content, info.sys = some stat ∧ stat.nlink > 1 ∧
        Cache.load cache stat.ino = none ∧ readFile path = Except.ok content ∧
        (worker readFile path cache info hashalgo).cache =
          Cache.store cache stat.ino (digestOf (selectHasher hashalgo).1 content)) ∧
    (∀ i d, Cache.load cache i = some d →
      Cache.load (worker readFile path cache info hashalgo).cache i = some d) := by
  refine ⟨?_, fun i d h => worker_preserves_load readFile path cache info hashalgo i d h⟩
  cases hsys : info.sys with
  | none =>
    cases hread : readFile path with
    | error e => left; simp only [worker, workerHash, hsys, hread]
    | ok content => left; simp only [worker, workerHash, hsys, hread]
  | some stat =>
    cases hload : Cache.load cache stat.ino with
    | some v => left; simp only [worker, hsys, hload]
    | none =>
      cases hread : readFile path with
      | error e => left; simp only [worker, workerHash, hsys, hload, hread]
      | ok content =>
        by_cases hn : stat.nlink > 1
        · right
          refine ⟨stat, content, rfl, hn, hload, rfl, ?_⟩
          simp only [worker, workerHash, hsys, hload, hread, hn, if_true]
        · left
          simp only [worker, workerHash, hsys, hload, hread, hn, if_false]

theorem cache_write_policy_witness :
    Cache.load (worker (fun _ => Except.ok "x") "p" [(3, "d3")] regInfoW "sha256").cache 3 =
      some "d3" :=
  (cache_write_policy (fun _ => Except.ok "x") "p" [(3, "d3")] regInfoW "sha256").2 3 "d3" rfl

/-- With symlink-following disabled, a visit adds at most the entry itself,
and only when its path does not match the exclusion predicate. -/
theorem visitFile_false_subs (excl : Option (String → Bool)) (path : String)
    (info : FileInfo) (rl : Except String String) (st : WalkOut) :
    ∀ sub ∈ (visitFile false excl path info rl st).subs,
      sub ∈ st.subs ∨ matchesExclude excl sub.path = false := by
  intro sub hsub
  unfold visitFile at hsub
  by_cases hm : matchesExclude excl path = true
  · rw [if_pos hm] at hsub
    exact Or.inl hsub
  · rw [if_neg hm] at hsub
    by_cases hr : info.isRegular = true
    · rw [if_pos hr] at hsub
      simp only [List.mem_append, List.mem_singleton] at hsub
      rcases hsub with h | h
      · exact Or.inl h
      · subst h
        right
        simpa using hm
    · rw [if_neg hr] at hsub
      simp only [Bool.false_eq_true, if_false] at hsub
      exact Or.inl hsub

mutual
/-- With symlink-following disabled, every submission the walk makes from a
node has a path the exclusion predicate does not match. -/
theorem walkRec_subs_sound (excl : Option (String → Bool)) (path : String)
    (node : FSTree) (st : WalkOut) :
    ∀ sub ∈ ((walkRec false excl path node st).1).subs,
      sub ∈ st.subs ∨ matchesExclude excl sub.path = false :=
  match node with
  | FSTree.badStat e => fun sub hsub => Or.inl (by simpa [walkRec] using hsub)
  | FSTree.file info rl => fun sub hsub =>
      visitFile_false_subs excl path info rl st sub (by simpa [walkRec] using hsub)
  | FSTree.dir info entries rdErr => by
      cases rdErr with
      | some e =>
          intro sub hsub
          exact Or.inl (by simpa [walkRec] using hsub)
      | none =>
          intro sub hsub
          by_cases hm : matchesExclude excl path = true
          · simp only [walkRec, if_pos hm] at hsub
            exact Or.inl hsub
          · simp only [walkRec, if_neg hm] at hsub
            exact walkChildren_subs_sound excl path entries st sub hsub

/-- With symlink-following disabled, every submission a child loop makes
has a path the exclusion predicate does not match. -/
theorem walkChildren_subs_sound (excl : Option (String → Bool)) (path : String)
    (entries : FSEntries) (st : WalkOut) :
    ∀ sub ∈ ((walkChildren false excl path entries st).1).subs,
      sub ∈ st.subs ∨ matchesExclude excl sub.path = false :=
  match entries with
  | FSEntries.nil => fun sub hsub => Or.inl (by simpa [walkChildren] using hsub)
  | FSEntries.cons name child rest => fun sub hsub => by
      simp only [walkChildren] at hsub
      rcases walkChildren_subs_sound excl path rest
          (walkRec false excl (path ++ "/" ++ name) child st).1 sub hsub with h | h
      · exact walkRec_subs_sound excl (path ++ "/" ++ name) child st sub h
      · exact Or.inr h
end

/-- Claim C3 counterexample: with follow-symlinks enabled, the exclusion
predicate is tested only against visited entry paths, never against a
symlink's target; here the path "/r/secret" is matched by the pattern, yet
the traversal submits it for hashing because a non-matched symlink
"/r/link" points to it. -/
theorem excluded_path_submitted :
    matchesExclude (some fun s => s == "/r/secret") "/r/secret" = true ∧
    (walkDirectory true (some fun s => s == "/r/secret") "/r"
        (FSTree.dir dirInfoW
          (FSEntries.cons "link" (FSTree.file symInfoW (Except.ok "/r/secret"))
            FSEntries.nil) none)).subs
      = [⟨"/r/secret", symInfoW⟩] := by
  exact ⟨by decide, by decide⟩

/-- Claim C3 (amended): a matched, listable directory is pruned (the walk
returns SkipDir without touching its subtree); a matched non-directory
entry is skipped while its siblings continue; with no pattern configured
nothing matches; and with symlink-following disabled no submitted path ever
matches the predicate. (With symlink-following enabled, a symlink target is
submitted without being tested against the predicate — see the
counterexample.) -/
theorem exclusion_pruning (excl : Option (String → Bool)) (follow : Bool) :
    (∀ path info entries st, matchesExclude excl path = true →
      walkRec follow excl path (FSTree.dir info entries none) st = (st, FnRet.skipDir)) ∧
    (∀ path info rl st, matchesExclude excl path = true →
      walkRec follow excl path (FSTree.file info rl) st = (st, FnRet.ok)) ∧
    (∀ ppath name info rl rest st, matchesExclude excl (ppath ++ "/" ++ name) = true →
      walkChildren follow excl ppath (FSEntries.cons name (FSTree.file info rl) rest) st =
        walkChildren follow excl ppath rest st) ∧
    (∀ path node st, ∀ sub ∈ ((walkRec false excl path node st).1).subs,
      sub ∈ st.subs ∨ matchesExclude excl sub.path = false) ∧
    (∀ p, matchesExclude none p = false) := by
  refine ⟨?_, ?_, ?_, ?_, fun p => rfl⟩
  · intro path info entries st hm
    simp only [walkRec, if_pos hm]
  · intro path info rl st hm
    simp only [walkRec, visitFile, if_pos hm]
  · intro ppath name info rl rest st hm
    simp only [walkChildren, walkRec, visitFile, if_pos hm]
  · intro path node st
    exact walkRec_subs_sound excl path node st

theorem exclusion_pruning_witness :
    walkRec false (some fun s => s == "/r/skip") "/r/skip"
        (FSTree.dir dirInfoW FSEntries.nil none)
        { filecount := 0, subs := [], errs := [] } =
      ({ filecount := 0, subs := [], errs := [] }, FnRet.skipDir) :=
  (exclusion_pruning (some fun s => s == "/r/skip") false).1 "/r/skip" dirInfoW
    FSEntries.nil { filecount := 0, subs := [], errs := [] } (by decide)

/-- Claim C4: with follow-symlinks disabled, a non-regular entry (hence any
symlink) produces the skip diagnostic and no submission; with it enabled, a
symlink that resolves is submitted under its target path while the
submission carries the symlink entry's own FileInfo — the metadata the
worker's hard-link cache check consults; a resolution failure is logged,
produces no submission, and the callback returns nil so the walk
continues. -/
theorem symlink_policy (excl : Option (String → Bool)) (path : String)
    (info : FileInfo) (st : WalkOut)
    (hnm : matchesExclude excl path = false) (hnr : info.isRegular = false) :
    (∀ rl, visitFile false excl path info rl st =
      { st with errs := st.errs ++ ["skipping non-regular file " ++ path] }) ∧
    (info.isSymlink = true → ∀ target,
      visitFile true excl path info (Except.ok target) st =
        { st with filecount := st.filecount + 1, subs := st.subs ++ [⟨target, info⟩] }) ∧
    (info.isSymlink = true → ∀ e,
      visitFile true excl path info (Except.error e) st =
        { st with errs := st.errs ++ ["error reading symlink " ++ path ++ ": " ++ e] }) := by
  refine ⟨?_, ?_, ?_⟩
  · intro rl
    simp [visitFile, hnm, hnr]
  · intro hsl target
    simp [visitFile, checkSymlink, hnm, hnr, hsl]
  · intro hsl e
    simp [visitFile, checkSymlink, hnm, hnr, hsl]

theorem symlink_policy_witness :
    visitFile true none "/r/link" symInfoW (Except.ok "target.txt")
        { filecount := 0, subs := [], errs := [] } =
      { filecount := 1, subs := [⟨"target.txt", symInfoW⟩], errs := [] } :=
  (symlink_policy none "/r/link" symInfoW { filecount := 0, subs := [], errs := [] }
    rfl rfl).2.1 rfl "target.txt"

/-- Claim C7: walk errors are absorbed: a directory whose listing fails is
logged and only its subtree is skipped (the callback returns nil, so the
walk continues); a child whose Lstat fails is logged and its siblings
continue; a root whose Lstat fails yields one log line and an otherwise
empty outcome. No walk error ever reaches the run result. -/
theorem walk_error_recovery (follow : Bool) (excl : Option (String → Bool)) :
    (∀ path info entries e st,
      walkRec follow excl path (FSTree.dir info entries (some e)) st =
        ({ st with errs := st.errs ++ [walkErrMsg path e] }, FnRet.ok)) ∧
    (∀ ppath name e rest st,
      walkChildren follow excl ppath (FSEntries.cons name (FSTree.badStat e) rest) st =
        walkChildren follow excl ppath rest
          { st with errs := st.errs ++ [walkErrMsg (ppath ++ "/" ++ name) e] }) ∧
    (∀ dir e, walkDirectory follow excl dir (FSTree.badStat e) =
      { filecount := 0, subs := [], errs := [walkErrMsg dir e] }) := by
  refine ⟨fun path info entries e st => rfl, fun ppath name e rest st => ?_, fun dir e => rfl⟩
  simp only [walkChildren, walkRec]

/-- Claim C9: the path submitted for a followed symlink is the literal
readlink target — not the target joined with the link's parent directory —
and the worker then opens that literal string, which the OS resolves
against the process's current working directory when it is relative. -/
theorem symlink_target_not_joined (excl : Option (String → Bool))
    (dirPath name target : String) (info : FileInfo) (rest : FSEntries) (st : WalkOut)
    (hnm : matchesExclude excl (dirPath ++ "/" ++ name) = false)
    (hnr : info.isRegular = false) (hsl : info.isSymlink = true) :
    (walkChildren true excl dirPath
        (FSEntries.cons name (FSTree.file info (Except.ok target)) rest) st =
      walkChildren true excl dirPath rest
        { st with filecount := st.filecount + 1, subs := st.subs ++ [⟨target, info⟩] }) ∧
    (∀ (cwd : String) (fsFiles : String → Option String) (cache : Cache)
        (hashalgo : String) (content : String),
      (∀ stat, info.sys = some stat → Cache.load cache stat.ino = none) →
      fsFiles (resolvePath cwd target) = some content →
      worker (sysRead cwd fsFiles) target cache info hashalgo =
        { stdout := [⟨digestOf (selectHasher hashalgo).1 content, target, Marker.computed⟩],
          stderr := if (selectHasher hashalgo).2 then
              ["unsupported hash algorithm " ++ hashalgo ++ " falling back to sha256"]
            else [],
          cache := match info.sys with
                   | some stat =>
                       if stat.nlink > 1 then
                         Cache.store cache stat.ino (digestOf (selectHasher hashalgo).1 content)
                       else cache
                   | none => cache,
          err := none, opened := [target] }) := by
  constructor
  · simp [walkChildren, walkRec, visitFile, checkSymlink, hnm, hnr, hsl]
  · intro cwd fsFiles cache hashalgo content hmiss hfs
    exact worker_miss (sysRead cwd fsFiles) target cache info hashalgo content hmiss
      (by simp only [sysRead, hfs])

theorem symlink_target_not_joined_witness :
    worker (sysRead "/cwd" (fun s => if s == "/cwd/rel.txt" then some "hello" else none))
        "rel.txt" [] symInfoW "sha256" =
      { stdout := [⟨digestOf HashAlgo.sha256 "hello", "rel.txt", Marker.computed⟩],
        stderr := [], cache := [], err := none, opened := ["rel.txt"] } :=
  (symlink_target_not_joined none "/r" "link" "rel.txt" symInfoW FSEntries.nil
      { filecount := 0, subs := [], errs := [] } rfl rfl rfl).2
    "/cwd" (fun s => if s == "/cwd/rel.txt" then some "hello" else none) [] "sha256" "hello"
    (by intro stat hstat; simp only [symInfoW] at hstat; injection hstat with hh; subst hh; rfl)
    (by decide)

/-- Claim C10: with follow-symlinks enabled, a non-regular, non-directory
entry that is not a symlink (FIFO, socket, device) is skipped silently —
no submission and no diagnostic; the skipped-entry notice is printed only
when follow-symlinks is disabled. -/
theorem special_file_silent_skip (excl : Option (String → Bool)) (path : String)
    (info : FileInfo) (rl : Except String String) (st : WalkOut)
    (hnm : matchesExclude excl path = false) (hnr : info.isRegular = false)
    (hns : info.isSymlink = false) :
    visitFile true excl path info rl st = st ∧
    visitFile false excl path info rl st =
      { st with errs := st.errs ++ ["skipping non-regular file " ++ path] } := by
  constructor
  · simp [visitFile, checkSymlink, hnm, hnr, hns]
  · simp [visitFile, hnm, hnr]

theorem special_file_silent_skip_witness :
    visitFile true none "/r/fifo" fifoInfoW (Except.ok "")
        { filecount := 0, subs := [], errs := [] } =
      { filecount := 0, subs := [], errs := [] } :=
  (special_file_silent_skip none "/r/fifo" fifoInfoW (Except.ok "")
    { filecount := 0, subs := [], errs := [] } rfl rfl rfl).1

/-- Claim C6: an unrecognized hash-algorithm identifier does not fail the
run: the switch falls through to sha256 with the warning on the diagnostic
stream, and a worker that reads its file successfully emits a computed line
whose digest is the sha256 (fallback) digest and returns nil. -/
theorem unsupported_algo_fallback (s : String) (hs : s ∉ supportedAlgos) :
    selectHasher s = (HashAlgo.sha256, true) ∧
    ∀ (readFile : String → Except String String) (path : String) (cache : Cache)
      (info : FileInfo) (content : String),
      (∀ stat, info.sys = some stat → Cache.load cache stat.ino = none) →
      readFile path = Except.ok content →
      worker readFile path cache info s =
        { stdout := [⟨digestOf HashAlgo.sha256 content, path, Marker.computed⟩],
          stderr := ["unsupported hash algorithm " ++ s ++ " falling back to sha256"],
          cache := match info.sys with
                   | some stat =>
                       if stat.nlink > 1 then
                         Cache.store cache stat.ino (digestOf HashAlgo.sha256 content)
                       else cache
                   | none => cache,
          err := none, opened := [path] } := by
  have hsel : selectHasher s = (HashAlgo.sha256, true) := by
    simp only [supportedAlgos, List.mem_cons, List.not_mem_nil, or_false, not_or] at hs
    obtain ⟨h1, h2, h3, h4, h5, h6, h7, h8, h9, h10, h11⟩ := hs
    simp [selectHasher, h1, h2, h3, h4, h5, h6, h7, h8, h9, h10, h11]
  refine ⟨hsel, ?_⟩
  intro readFile path cache info content hmiss hread
  rw [worker_miss readFile path cache info s content hmiss hread, hsel]
  rfl

theorem unsupported_algo_fallback_witness :
    worker (fun _ => Except.ok "hi") "/r/a" [] regInfoW "foo" =
      { stdout := [⟨digestOf HashAlgo.sha256 "hi", "/r/a", Marker.computed⟩],
        stderr := ["unsupported hash algorithm " ++ "foo" ++ " falling back to sha256"],
        cache := Cache.store [] 5 (digestOf HashAlgo.sha256 "hi"),
        err := none, opened := ["/r/a"] } :=
  (unsupported_algo_fallback "foo" (by decide)).2 (fun _ => Except.ok "hi") "/r/a" [] regInfoW
    "hi"
    (by intro stat hstat; simp only [regInfoW] at hstat; injection hstat with hh; subst hh; rfl)
    rfl

/-- Claim C5 counterexample: when the root path cannot be resolved
(`filepath.Abs` fails, main.go lines 180-184), main exits with failure even
though the exclusion pattern compiled and no worker ran — let alone
returned an error — a third failure cause the claim's "if and only if"
omits. -/
theorem abs_failure_exit :
    mainBadAbsW.exitCode ≠ 0 ∧
    ¬ ((∃ e, compileExclude compOkW "x" = Except.error e) ∨
       (∃ p absPath, compileExclude compOkW "x" = Except.ok p ∧
         Except.error "getwd: no such file or directory" = Except.ok absPath ∧
         ∃ e, firstError (runTasks (fun _ => Except.ok "hi") "sha256" []
             (walkDirectory false p absPath treeOneW).subs).2 = some e)) := by
  constructor
  · decide
  · rintro (⟨e, he⟩ | ⟨p, absPath, hp, hpa, e, hfe⟩)
    · simp [compileExclude, compOkW] at he
    · exact Except.noConfusion hpa

/-- Claim C5 (amended): the process fails (non-zero exit) iff the exclusion
pattern fails to compile, or the root path cannot be resolved to an
absolute path, or some worker returns an error; every submitted task
produces exactly one worker execution (one task's error removes none of the
others from the run); in the worker-error case the error reported last on
stderr is the first error in task order, reported after the whole run; on
success the last stderr line is the processed-file count and the exit code
is zero. -/
theorem exit_behavior (compile : String → Except String (String → Bool))
    (absResult : Except String String) (readFile : String → Except String String)
    (root : FSTree) (follow : Bool) (hashalgo : String) (exclude : String) :
    ((mainRun compile absResult readFile root follow hashalgo exclude).exitCode ≠ 0 ↔
      ((∃ e, compileExclude compile exclude = Except.error e) ∨
       (∃ e, absResult = Except.error e) ∨
       (∃ p absPath, compileExclude compile exclude = Except.ok p ∧
         absResult = Except.ok absPath ∧
         ∃ e, firstError (runTasks readFile hashalgo []
             (walkDirectory follow p absPath root).subs).2 = some e))) ∧
    (∀ p absPath, compileExclude compile exclude = Except.ok p →
      absResult = Except.ok absPath →
      ((runTasks readFile hashalgo [] (walkDirectory follow p absPath root).subs).2.length =
        (walkDirectory follow p absPath root).subs.length) ∧
      (∀ e, firstError (runTasks readFile hashalgo []
            (walkDirectory follow p absPath root).subs).2 = some e →
        (mainRun compile absResult readFile root follow hashalgo exclude).exitCode = 1 ∧
        (mainRun compile absResult readFile root follow hashalgo exclude).stderr.getLast? =
          some ("Error: " ++ e)) ∧
      (firstError (runTasks readFile hashalgo []
            (walkDirectory follow p absPath root).subs).2 = none →
        (mainRun compile absResult readFile root follow hashalgo exclude).exitCode = 0 ∧
        (mainRun compile absResult readFile root follow hashalgo exclude).stderr.getLast? =
          some ("Files processed: " ++
            toString (walkDirectory follow p absPath root).filecount))) := by
  cases hc : compileExclude compile exclude with
  | error e0 =>
      refine ⟨?_, fun p absPath hp => Except.noConfusion hp⟩
      simp only [mainRun, hc]
      constructor
      · exact fun _ => Or.inl ⟨e0, rfl⟩
      · exact fun _ => Nat.one_ne_zero
  | ok p0 =>
      cases ha : absResult with
      | error ea =>
          refine ⟨?_, fun p absPath hp hpa => Except.noConfusion hpa⟩
          simp only [mainRun, hc, ha]
          constructor
          · exact fun _ => Or.inr (Or.inl ⟨ea, rfl⟩)
          · exact fun _ => Nat.one_ne_zero
      | ok abs0 =>
          cases hf : firstError (runTasks readFile hashalgo []
              (walkDirectory follow p0 abs0 root).subs).2 with
          | some e1 =>
              constructor
              · simp only [mainRun, hc, ha, hf]
                constructor
                · exact fun _ => Or.inr (Or.inr ⟨p0, abs0, rfl, rfl, e1, hf⟩)
                · exact fun _ => Nat.one_ne_zero
              · intro p absPath hp hpa
                injection hp with hp'
                injection hpa with hpa'
                subst hp'
                subst hpa'
                refine ⟨runTasks_length readFile hashalgo _ _, ?_, ?_⟩
                · intro e he
                  rw [hf] at he
                  injection he with he'
                  subst he'
                  constructor
                  · simp only [mainRun, hc, ha, hf]
                  · simp only [mainRun, hc, ha, hf]
                    exact List.getLast?_concat _
                · intro hnone
                  rw [hf] at hnone
                  exact Option.noConfusion hnone
          | none =>
              constructor
              · simp only [mainRun, hc, ha, hf]
                constructor
                · exact fun h => absurd rfl h
                · rintro (⟨e, he⟩ | ⟨e, he⟩ | ⟨p, absPath, hp, hpa, e, hfe⟩)
                  · exact Except.noConfusion he
                  · exact Except.noConfusion he
                  · injection hp with hp'
                    injection hpa with hpa'
                    subst hp'
                    subst hpa'
                    rw [hf] at hfe
                    exact Option.noConfusion hfe
              · intro p absPath hp hpa
                injection hp with hp'
                injection hpa with hpa'
                subst hp'
                subst hpa'
                refine ⟨runTasks_length readFile hashalgo _ _, ?_, ?_⟩
                · intro e he
                  rw [hf] at he
                  exact Option.noConfusion he
                · intro _
                  constructor
                  · simp only [mainRun, hc, ha, hf]
                  · simp only [mainRun, hc, ha, hf]
                    exact List.getLast?_concat _

theorem exit_behavior_witness :
    (mainRun compOkW (Except.ok "/r") (fun _ => Except.ok "hi")
        treeOneW false "sha256" "").exitCode = 0 ∧
    (mainRun compOkW (Except.ok "/r") (fun _ => Except.ok "hi")
        treeOneW false "sha256" "").stderr.getLast? =
      some ("Files processed: " ++
        toString (walkDirectory false none "/r" treeOneW).filecount) :=
  (((exit_behavior compOkW (Except.ok "/r") (fun _ => Except.ok "hi")
      treeOneW false "sha256" "").2 none "/r" rfl rfl).2.2 (by decide)).imp id id

/-- Claim C8: with the scheduler modelled as a transition system on the
number of active workers, a positive configured pool size — for which main
calls SetLimit — bounds every reachable state by that size, while a
non-positive pool size leaves the group unlimited: every activity level is
reachable. -/
theorem scheduler_limit (poolSize : Int) :
    (0 < poolSize → ∀ a, SchedReachable (egLimit poolSize) a → a ≤ poolSize.toNat) ∧
    (poolSize ≤ 0 → ∀ k, SchedReachable (egLimit poolSize) k) := by
  constructor
  · intro hpos a hreach
    have hlim : egLimit poolSize = some poolSize.toNat := by simp [egLimit, hpos]
    induction hreach with
    | refl => exact Nat.zero_le _
    | tail hsteps hstep ih =>
        cases hstep with
        | start act h => exact h _ hlim
        | finish act => omega
  · intro hnonpos k
    have hlim : egLimit poolSize = none := by
      simp only [egLimit, ite_eq_right_iff]
      intro hpos
      omega
    induction k with
    | zero => exact Relation.ReflTransGen.refl
    | succ n ih =>
        exact Relation.ReflTransGen.tail ih
          (SchedStep.start n (fun m hm => by rw [hlim] at hm; exact Option.noConfusion hm))

theorem scheduler_limit_witness :
    1 ≤ (2 : Int).toNat ∧ SchedReachable (egLimit (-1)) 5 :=
  ⟨(scheduler_limit 2).1 (by decide) 1
      (Relation.ReflTransGen.single
        (SchedStep.start 0 (fun n hn => by
          simp only [egLimit, if_pos (by decide : (0:Int) < 2)] at hn
          injection hn with hn'
          omega))),
    (scheduler_limit (-1)).2 (by decide) 5⟩

end Shadir
